import Mathlib

/-!
Shallow embedding of `PlatformTools/Tools/bootstrapper/bootstrapper.py`.

The tool is a sequential orchestrator over a filesystem and three external
collaborators (a version-control client, an HTTP transport, archive
extractors).  The filesystem is modelled as a partial map from POSIX path
strings to entries; the external collaborators are modelled by a `World`
record giving the outcome of each invocation, since the tool only observes
success/failure (plus downloaded bytes).  Python exceptions are modelled as an
explicit `exn` channel, `exit(1)` as a `fatal` channel.
-/

set_option maxHeartbeats 1000000

namespace Bootstrapper

/-- A filesystem entry: a regular file (abstract content, modification time,
and a read-only/write-protection bit) or a directory. -/
inductive Entry where
  | file (content : Nat) (mtime : Nat) (readOnly : Bool)
  | dir
deriving DecidableEq

/-- The filesystem: a partial map from path strings to entries.  Lookups go
through `normPath`, so `proj/` and `proj` name the same node, as the OS
resolves them. -/
def FS : Type := String → Option Entry

/-- Log lines produced via the `logging` module, by severity. -/
inductive Log where
  | debug (msg : String)
  | info (msg : String)
  | warning (msg : String)
  | error (msg : String)
deriving DecidableEq

/-- Does the log contain an `ERROR` line? -/
def hasError (ls : List Log) : Bool :=
  ls.any fun l => match l with | Log.error _ => true | _ => false

/-- Does the log contain a `WARNING` line? -/
def hasWarning (ls : List Log) : Bool :=
  ls.any fun l => match l with | Log.warning _ => true | _ => false

/-- `s.startsWith pre`, computed on the character list. -/
def strStartsWith (s pre : String) : Bool := pre.toList.isPrefixOf s.toList

/-- `s.endsWith suf`, computed on the character list. -/
def strEndsWith (s suf : String) : Bool := suf.toList.isSuffixOf s.toList

/-- `s.drop n`, computed on the character list. -/
def strDrop (s : String) (n : Nat) : String := String.mk (s.toList.drop n)

/-- Strip all trailing slash characters. -/
def stripSlashes (p : String) : String :=
  String.mk ((p.toList.reverse.dropWhile (fun c => c = '/')).reverse)

/-- Normalise a path for a filesystem access: the OS resolves a trailing
slash to the same directory (`proj/` is `proj`). -/
def normPath (p : String) : String :=
  let s := stripSlashes p
  if s = "" ∧ p ≠ "" then "/" else s

/-- `os.path.join` for POSIX paths, exactly as the tool uses it; in
particular `ospJoin a "" = a ++ "/"` for a non-slash-terminated `a`. -/
def ospJoin (a b : String) : String :=
  if strStartsWith b "/" then b
  else if a = "" ∨ strEndsWith a "/" then a ++ b
  else a ++ "/" ++ b

/-- The position of `p` relative to `base`: `some ""` when `p = base`,
`some rel` when `p` is `base/rel`, and `none` when `p` is outside `base`. -/
def underOf (base p : String) : Option String :=
  if p = base then some ""
  else if strStartsWith p (base ++ "/") then some (strDrop p (base.length + 1))
  else none

/-- Join a base path with a relative suffix (both already normalised). -/
def joinRel (base rel : String) : String :=
  if rel = "" then base else base ++ "/" ++ rel

/-- `os.path.dirname`. -/
def dirname (p : String) : String :=
  String.mk (((p.toList.reverse.dropWhile (fun c => c ≠ '/')).drop 1).reverse)

/-- `os.path.basename`. -/
def basename (p : String) : String :=
  String.mk ((p.toList.reverse.takeWhile (fun c => c ≠ '/')).reverse)

/-- `os.path.isdir`. -/
def isdir (fs : FS) (p : String) : Bool :=
  fs (normPath p) = some Entry.dir

/-- `os.path.isfile`. -/
def isfile (fs : FS) (p : String) : Bool :=
  match fs (normPath p) with
  | some (Entry.file _ _ _) => true
  | _ => false

/-- `os.path.exists`. -/
def existsPath (fs : FS) (p : String) : Bool :=
  (fs (normPath p)).isSome

/-- `shutil.rmtree src` as called by the tool, i.e. with the
`remove_readonly` hook passed as `onerror`: the hook clears the
write-protection bit and retries, so the removal of `src` and of everything
below it succeeds also on read-only entries. -/
def rmtree (src : String) (fs : FS) : FS :=
  fun p => if (underOf (normPath src) p).isSome then none else fs p

/-- `os.remove`. -/
def removeFile (src : String) (fs : FS) : FS :=
  fun p => if p = normPath src then none else fs p

/-- `os.makedirs(path, exist_ok=True)`: create the directory and every
missing ancestor; existing entries are untouched. -/
def makedirs (path : String) (fs : FS) : FS :=
  let t := normPath path
  fun p => if (underOf p t).isSome ∧ fs p = none then some Entry.dir else fs p

/-- `os.makedirs` raises `FileNotFoundError` on the empty path. -/
def makedirsE (path : String) (fs : FS) : Except String FS :=
  if path = "" then Except.error "FileNotFoundError" else Except.ok (makedirs path fs)

/-- `shutil.copy2 src dst`: copy one file together with its metadata
(modification time, permission bits).  Copying onto an existing directory
places the file inside it under the source's base name; a missing source
raises `FileNotFoundError`. -/
def copy2 (src dst : String) (fs : FS) : Except String FS :=
  match fs (normPath src) with
  | some (Entry.file c m ro) =>
    let d :=
      match fs (normPath dst) with
      | some Entry.dir => joinRel (normPath dst) (basename (normPath src))
      | _ => normPath dst
    Except.ok (fun p => if p = d then some (Entry.file c m ro) else fs p)
  | some Entry.dir => Except.error "IsADirectoryError"
  | none => Except.error "FileNotFoundError"

/-- `shutil.copytree src dst (dirs_exist_ok := true)`: recursive merge-copy.
An entry below `dst` whose counterpart exists below `src` is overwritten with
the source's version (metadata included, `copytree` copies files via
`copy2`); an entry with no counterpart below `src` is kept. -/
def copytree (src dst : String) (fs : FS) : FS :=
  fun p =>
    match underOf dst p with
    | some rel =>
      match fs (joinRel src rel) with
      | some e => some e
      | none => fs p
    | none => fs p

/-- `open(path, "wb")` followed by chunked writes: overwrite `path` with the
downloaded content.  Opening an existing directory for writing raises
`IsADirectoryError`; a missing parent directory raises `FileNotFoundError`. -/
def writeFile (path : String) (content : Nat) (fs : FS) : Except String FS :=
  let p := normPath path
  if fs p = some Entry.dir then Except.error "IsADirectoryError"
  else if dirname p ≠ "" ∧ fs (normPath (dirname p)) ≠ some Entry.dir then
    Except.error "FileNotFoundError"
  else Except.ok (fun q => if q = p then some (Entry.file content 0 false) else fs q)

/-- Outcomes of the external collaborators (version-control client, HTTP
transport, archive extractors).  The tool only observes success or failure,
plus the received bytes of a download; the working-tree contents produced by
the version-control client are outside the model (external collaborator). -/
structure World where
  gitOk : List String → Bool
  httpOk : String → Bool
  httpBody : String → Nat
  extractZip : String → FS → Except String FS
  extractTar : String → FS → Except String FS

/-- One manifest task entry; `none` models an absent key. -/
structure Task where
  action : Option String
  source : Option String
  destination : Option String

/-- Result of one task handler call: the filesystem, the log lines the call
produced, and the exception it raised, if any. -/
structure TRes where
  fs : FS
  logs : List Log
  exn : Option String

/-- Python truthiness of an optional string field: an absent key and the
empty string are falsy, every other string is truthy. -/
def truthy : Option String → Bool
  | none => false
  | some s => s ≠ ""

namespace TaskExecutor

/-- `TaskExecutor._copy`. -/
def copyAction (source : String) (destination : Option String) (fs : FS) : TRes :=
  match destination with
  | none => ⟨fs, [Log.error "Destination not specified for copy action"], none⟩
  | some d =>
    if d = "" then ⟨fs, [Log.error "Destination not specified for copy action"], none⟩
    else
      let l0 := Log.info "Copying"
      if isdir fs source then
        ⟨copytree (normPath source) (normPath d) fs, [l0], none⟩
      else
        match makedirsE (dirname d) fs with
        | Except.error e => ⟨fs, [l0], some e⟩
        | Except.ok fs1 =>
          match copy2 source d fs1 with
          | Except.error e => ⟨fs1, [l0], some e⟩
          | Except.ok fs2 => ⟨fs2, [l0], none⟩

/-- `TaskExecutor._delete` (the second parameter of the Python method is
unused). -/
def deleteAction (source : String) (fs : FS) : TRes :=
  let l0 := Log.info "Deleting"
  if isdir fs source then ⟨rmtree source fs, [l0], none⟩
  else if isfile fs source then ⟨removeFile source fs, [l0], none⟩
  else ⟨fs, [l0, Log.warning "Path does not exist"], none⟩

/-- `TaskExecutor._expand`.  With an absent destination, `os.makedirs(None)`
raises `TypeError`; extraction failures are caught inside the handler and
logged as errors. -/
def expandAction (w : World) (source : String) (destination : Option String) (fs : FS) : TRes :=
  match destination with
  | none => ⟨fs, [], some "TypeError"⟩
  | some d =>
    match makedirsE d fs with
    | Except.error e => ⟨fs, [], some e⟩
    | Except.ok fs1 =>
      let l0 := Log.info "Extracting"
      if strEndsWith source ".zip" then
        match w.extractZip source fs1 with
        | Except.ok fs2 => ⟨fs2, [l0], none⟩
        | Except.error _ => ⟨fs1, [l0, Log.error "Error extracting"], none⟩
      else if strEndsWith source ".tar.gz" ∨ strEndsWith source ".tgz" ∨ strEndsWith source ".tar" then
        match w.extractTar source fs1 with
        | Except.ok fs2 => ⟨fs2, [l0], none⟩
        | Except.error _ => ⟨fs1, [l0, Log.error "Error extracting"], none⟩
      else ⟨fs1, [l0, Log.warning "Unsupported file format for extraction"], none⟩

/-- The value produced by `action_map.get(action, 'unknown')`: one of the
three bound handler methods, or — for any other action name — the plain
string default `'unknown'`. -/
inductive Handler where
  | copyH
  | deleteH
  | expandH
  | strVal (s : String)
deriving DecidableEq

/-- `action_map.get(action, 'unknown')`. -/
def action_map (action : Option String) : Handler :=
  match action with
  | some "copy" => Handler.copyH
  | some "delete" => Handler.deleteH
  | some "expand" => Handler.expandH
  | _ => Handler.strVal "unknown"

/-- Python truthiness of the dispatched value: bound methods are truthy and a
string is truthy exactly when non-empty — so the default `'unknown'` is
truthy and the `else` (warning) branch of the task loop is unreachable. -/
def Handler.truthy : Handler → Bool
  | Handler.strVal s => s ≠ ""
  | _ => true

/-- `func(source, destination)`: call one of the three handlers; calling the
string `'unknown'` raises `TypeError`. -/
def callHandler (w : World) : Handler → String → Option String → FS → TRes
  | Handler.copyH, s, d, fs => copyAction s d fs
  | Handler.deleteH, s, _, fs => deleteAction s fs
  | Handler.expandH, s, d, fs => expandAction w s d fs
  | Handler.strVal _, _, _, fs => ⟨fs, [], some "TypeError: str object is not callable"⟩

/-- One iteration of the `execute_tasks` loop: resolve `source` and
`destination` against the base directory, call the dispatched value, and
catch any exception it raises, logging it as an error. -/
def stepTask (w : World) (base : String) (acc : TRes) (task : Task) : TRes :=
  match acc.exn with
  | some _ => acc
  | none =>
    let func := action_map task.action
    if func.truthy then
      let source := ospJoin base (task.source.getD "")
      let destination := task.destination.map (fun d => ospJoin base d)
      let r := callHandler w func source destination acc.fs
      match r.exn with
      | some _ => ⟨r.fs, acc.logs ++ r.logs ++ [Log.error "Error during task"], none⟩
      | none => ⟨r.fs, acc.logs ++ r.logs, none⟩
    else
      ⟨acc.fs, acc.logs ++ [Log.warning "Unknown action"], none⟩

/-- `TaskExecutor.execute_tasks`. -/
def execute_tasks (w : World) (tasks : List Task) (base : String) (fs : FS) : TRes :=
  tasks.foldl (stepTask w base) ⟨fs, [], none⟩

end TaskExecutor

/-- One manifest repository entry; `none` models an absent key.  The
`submodules` value is kept as the raw manifest string. -/
structure Repo where
  repo : Option String
  url : Option String
  branch : Option String
  commit : Option String
  submodules : Option String
  destination : Option String
  tasks : List Task

/-- Result of a provisioning step: the filesystem, the logs, the external
commands invoked in order, the `exit` code when the process terminated via
`exit`, and the uncaught exception, if any, that terminated the run. -/
structure PRes where
  fs : FS
  logs : List Log
  cmds : List (List String)
  fatal : Option Nat
  exn : Option String

/-- Sequential composition: a raised exception or a process `exit` skips
everything after it. -/
def PRes.andThen (r : PRes) (k : FS → PRes) : PRes :=
  if r.fatal.isSome ∨ r.exn.isSome then r
  else
    let r2 := k r.fs
    ⟨r2.fs, r.logs ++ r2.logs, r.cmds ++ r2.cmds, r2.fatal, r2.exn⟩

/-- A step that does nothing. -/
def PRes.skip (fs : FS) : PRes := ⟨fs, [], [], none, none⟩

/-- `os.path.exists(os.path.join(destination, ".git"))`. -/
def gitPresent (fs : FS) (destination : String) : Bool :=
  (fs (normPath (ospJoin destination ".git"))).isSome

namespace RepoManager

/-- `RepoManager.run_command`: run an external command; a non-zero exit is
reported and the process terminates via `exit(1)`. -/
def run_command (w : World) (command : List String) (fs : FS) : PRes :=
  if w.gitOk command then ⟨fs, [], [command], none, none⟩
  else ⟨fs, [Log.error "Error running command"], [command], some 1, none⟩

/-- `RepoManager.clone_repository`, line by line.  Reading
`self.repo['destination']` raises `KeyError` when the key is absent; the
missing-field check tests Python truthiness of `url` and of the joined
`destination`; `.git` presence selects pull over clone; a truthy `commit`
adds a checkout; a truthy `submodules` value adds the submodule step, with
`--recursive` exactly for the value `"recursive"`; finally the tasks run
with the same base directory the manager itself was given. -/
def clone_repository (w : World) (repo : Repo) (base_dir : String) (fs : FS) : PRes :=
  match repo.destination with
  | none => ⟨fs, [], [], none, some "KeyError"⟩
  | some destRel =>
    let branch := repo.branch.getD "main"
    let destination := ospJoin base_dir destRel
    let l0 := Log.info "Cloning sources"
    match repo.url with
    | none => ⟨fs, [l0, Log.error "Missing url or destination for a repository"], [], none, none⟩
    | some u =>
      if u = "" ∨ destination = "" then
        ⟨fs, [l0, Log.error "Missing url or destination for a repository"], [], none, none⟩
      else
        let fs1 := makedirs destination fs
        let gitStep :=
          if gitPresent fs1 destination then
            run_command w ["git", "-C", destination, "pull"] fs1
          else
            run_command w ["git", "clone", "--branch", branch, "--single-branch", u, destination] fs1
        let r1 : PRes := ⟨gitStep.fs, [l0] ++ gitStep.logs, gitStep.cmds, gitStep.fatal, gitStep.exn⟩
        let r2 := r1.andThen (fun fs2 =>
          if truthy repo.commit then
            run_command w ["git", "-C", destination, "checkout", repo.commit.getD ""] fs2
          else PRes.skip fs2)
        let r3 := r2.andThen (fun fs3 =>
          if truthy repo.submodules then
            run_command w
              (["git", "-C", destination, "submodule", "update", "--init"] ++
                (if repo.submodules = some "recursive" then ["--recursive"] else []))
              fs3
          else PRes.skip fs3)
        r3.andThen (fun fs4 =>
          let t := TaskExecutor.execute_tasks w repo.tasks base_dir fs4
          ⟨t.fs, t.logs, [], none, t.exn⟩)

end RepoManager

/-- One manifest artifact entry; `none` models an absent key. -/
structure Artifact where
  file : Option String
  url : Option String
  destination : Option String
  tasks : List Task

namespace ArtifactManager

/-- `ArtifactManager.download`, line by line.  The missing-`destination`
default is the empty string, so the resolved destination is the join of the
base directory with `""`; a transport failure (`raise_for_status`) or a
filesystem error while writing propagates as an uncaught exception. -/
def download (w : World) (a : Artifact) (base_dir : String) (fs : FS) : PRes :=
  let destination := ospJoin base_dir (a.destination.getD "")
  match a.url with
  | none => ⟨fs, [Log.error "Missing url or destination for download"], [], none, none⟩
  | some u =>
    if u = "" ∨ destination = "" then
      ⟨fs, [Log.error "Missing url or destination for download"], [], none, none⟩
    else
      match makedirsE (dirname destination) fs with
      | Except.error e => ⟨fs, [], [], none, some e⟩
      | Except.ok fs1 =>
        let l0 := Log.info "Downloading"
        if w.httpOk u then
          match writeFile destination (w.httpBody u) fs1 with
          | Except.error e => ⟨fs1, [l0], [], none, some e⟩
          | Except.ok fs2 =>
            let t := TaskExecutor.execute_tasks w a.tasks base_dir fs2
            ⟨t.fs, [l0] ++ t.logs, [], none, t.exn⟩
        else ⟨fs1, [l0], [], none, some "HTTPError"⟩

end ArtifactManager

/-- The parsed manifest value tree, restricted to the keys the tool reads. -/
structure Manifest where
  project : Option String
  repositories : List Repo
  artifacts : List Artifact

namespace BootstrapManager

/-- `BootstrapManager.run`: check the `project` key, create the project root,
then provision every repository and every artifact in manifest order. -/
def run (w : World) (config : Manifest) (fs : FS) : PRes :=
  if truthy config.project then
    let project_dir := config.project.getD ""
    let fs1 := makedirs project_dir fs
    let r0 := PRes.skip fs1
    let r1 := config.repositories.foldl
      (fun acc repo => acc.andThen (fun fsx => RepoManager.clone_repository w repo project_dir fsx)) r0
    config.artifacts.foldl
      (fun acc a => acc.andThen (fun fsx => ArtifactManager.download w a project_dir fsx)) r1
  else ⟨fs, [Log.error "project key not found in the manifest"], [], some 1, none⟩

end BootstrapManager

/-! Concrete fixtures used by the witnesses and counterexamples. -/

/-- A concrete filesystem built from an association list of normalised paths. -/
def fsOfList (l : List (String × Entry)) : FS :=
  fun p => (l.find? (fun e => e.1 == p)).map (fun e => e.2)

/-- The empty filesystem. -/
def fsEmpty : FS := fun _ => none

/-- A world in which every external invocation succeeds. -/
def wAll : World :=
  { gitOk := fun _ => true, httpOk := fun _ => true, httpBody := fun _ => 7,
    extractZip := fun _ fs => Except.ok fs, extractTar := fun _ fs => Except.ok fs }

/-- A world in which every external command exits non-zero. -/
def wGitFail : World :=
  { gitOk := fun _ => false, httpOk := fun _ => true, httpBody := fun _ => 7,
    extractZip := fun _ fs => Except.ok fs, extractTar := fun _ fs => Except.ok fs }

/-- A project directory holding two regular files. -/
def fsA : FS := fsOfList
  [("proj", Entry.dir), ("proj/a.txt", Entry.file 1 2 false), ("proj/b.txt", Entry.file 3 4 false)]

/-- The task-isolation scenario: a copy whose destination key is absent,
followed by a delete of an existing file. -/
def demoTasksC1 : List Task :=
  [⟨some "copy", some "missing", none⟩, ⟨some "delete", some "a.txt", none⟩]

/-- An unrecognised action followed by a delete of an existing file. -/
def demoTasksC2 : List Task :=
  [⟨some "unknown-op", some "a.txt", none⟩, ⟨some "delete", some "b.txt", none⟩]

/-- A repository entry whose `destination` key is absent. -/
def repoNoDest : Repo := ⟨some "r", some "u", none, none, none, none, []⟩

/-- A repository entry whose `url` key is absent. -/
def repoNoUrl : Repo := ⟨some "r", none, none, none, none, some "lib", []⟩

/-- A well-formed repository entry. -/
def repoOk : Repo := ⟨some "r2", some "u2", none, none, none, some "lib", []⟩

/-- A manifest whose first repository entry is missing its `destination`. -/
def mC3 : Manifest := ⟨some "proj", [repoNoDest, repoOk], []⟩

/-- A destination tree with `.git` metadata already present. -/
def fsGit : FS := fsOfList [("p", Entry.dir), ("p/lib", Entry.dir), ("p/lib/.git", Entry.dir)]

/-- A repository entry whose `submodules` value is the literal string "none". -/
def repoC9 : Repo := ⟨some "r", some "u", none, none, some "none", some "lib", []⟩

/-- A repository whose task deletes `data.txt`; the project root and the
repository's own destination each hold a file of that name. -/
def repoC6 : Repo :=
  ⟨some "r", some "u", none, none, none, some "lib", [⟨some "delete", some "data.txt", none⟩]⟩

/-- Filesystem for the path-resolution scenario: `p/data.txt` at the project
root and `p/lib/data.txt` inside the repository destination. -/
def fsC6 : FS := fsOfList
  [("p", Entry.dir), ("p/lib", Entry.dir), ("p/lib/.git", Entry.dir),
   ("p/data.txt", Entry.file 1 1 false), ("p/lib/data.txt", Entry.file 2 2 false)]

/-- An artifact downloaded to `lib/file.bin` whose task deletes `data.txt`;
like `repoC6`, it discriminates root-relative from entry-relative resolution. -/
def artC6 : Artifact :=
  ⟨some "f", some "http", some "lib/file.bin", [⟨some "delete", some "data.txt", none⟩]⟩

/-- The filesystem state right after the artifact download has written
`p/lib/file.bin` (the body `wAll` serves is `7`). -/
def fsC6art : FS := fun q =>
  if q = normPath (ospJoin "p" (artC6.destination.getD "")) then some (Entry.file 7 0 false)
  else makedirs (dirname (ospJoin "p" (artC6.destination.getD ""))) fsC6 q

/-- A tree with a read-only file inside a directory, plus a free-standing file. -/
def fsC7 : FS := fsOfList
  [("p", Entry.dir), ("p/d", Entry.dir), ("p/d/ro.txt", Entry.file 5 5 true),
   ("p/f.txt", Entry.file 6 6 false)]

/-- The copy-merge scenario: directory `A` holding `x.txt, y.txt`, directory
`B` holding an old `y.txt` and an unrelated `z.txt`. -/
def fsC8 : FS := fsOfList
  [("A", Entry.dir), ("A/x.txt", Entry.file 1 10 false), ("A/y.txt", Entry.file 2 20 false),
   ("B", Entry.dir), ("B/y.txt", Entry.file 9 90 false), ("B/z.txt", Entry.file 3 30 false)]

/-- The first version-control command issued for an entry with `url` and
`destination` present: a pull when `.git` already exists below the resolved
destination, otherwise a single-branch clone of the named branch. -/
def firstGitCommand (repo : Repo) (dest : String) (fs : FS) : List String :=
  if gitPresent (makedirs dest fs) dest then ["git", "-C", dest, "pull"]
  else ["git", "clone", "--branch", repo.branch.getD "main", "--single-branch",
        repo.url.getD "", dest]

/-! Helper lemmas shared by the claim theorems. -/

theorem stepTask_exn_none (w : World) (base : String) (acc : TRes) (t : Task)
    (h : acc.exn = none) : (TaskExecutor.stepTask w base acc t).exn = none := by
  unfold TaskExecutor.stepTask
  rw [h]
  simp only
  split
  · cases hr : (TaskExecutor.callHandler w (TaskExecutor.action_map t.action)
      (ospJoin base (t.source.getD "")) (t.destination.map fun d => ospJoin base d) acc.fs).exn <;>
      simp [hr]
  · rfl

theorem foldl_stepTask_exn_none (w : World) (base : String) :
    ∀ (tasks : List Task) (acc : TRes), acc.exn = none →
      (tasks.foldl (TaskExecutor.stepTask w base) acc).exn = none := by
  intro tasks
  induction tasks with
  | nil => intro acc h; simpa using h
  | cons t ts ih => intro acc h; exact ih _ (stepTask_exn_none w base acc t h)

theorem execute_tasks_exn_aux (w : World) (tasks : List Task) (base : String) (fs : FS) :
    (TaskExecutor.execute_tasks w tasks base fs).exn = none :=
  foldl_stepTask_exn_none w base tasks ⟨fs, [], none⟩ rfl

theorem PRes.andThen_halted (r : PRes) (k : FS → PRes) (h : r.fatal.isSome ∨ r.exn.isSome) :
    r.andThen k = r := by
  unfold PRes.andThen
  rw [if_pos h]

theorem foldl_andThen_halted {α : Type} (step : α → FS → PRes) :
    ∀ (l : List α) (r : PRes), (r.fatal.isSome ∨ r.exn.isSome) →
      l.foldl (fun acc e => acc.andThen (fun fsx => step e fsx)) r = r := by
  intro l
  induction l with
  | nil => intro r _; rfl
  | cons e es ih =>
    intro r h
    rw [List.foldl_cons, PRes.andThen_halted r _ h]
    exact ih r h

theorem PRes.andThen_cmds (r : PRes) (k : FS → PRes) :
    ∃ l, (r.andThen k).cmds = r.cmds ++ l := by
  unfold PRes.andThen
  split
  · exact ⟨[], (List.append_nil _).symm⟩
  · exact ⟨(k r.fs).cmds, rfl⟩

theorem cmds_andThen_head (r : PRes) (k : FS → PRes) (c : List String)
    (h : r.cmds.head? = some c) : ((r.andThen k).cmds).head? = some c := by
  obtain ⟨l, hl⟩ := PRes.andThen_cmds r k
  rw [hl]
  cases hc : r.cmds with
  | nil => rw [hc] at h; cases h
  | cons x xs => rw [hc] at h; simpa using h

theorem run_command_cmds (w : World) (cmd : List String) (fs : FS) :
    (RepoManager.run_command w cmd fs).cmds = [cmd] := by
  unfold RepoManager.run_command
  split <;> rfl

theorem clone_repository_first_cmd (w : World) (repo : Repo) (base : String) (fs : FS)
    (d u : String) (hd : repo.destination = some d) (hu : repo.url = some u)
    (hu2 : u ≠ "") (hdest : ospJoin base d ≠ "") :
    (RepoManager.clone_repository w repo base fs).cmds.head? =
      some (firstGitCommand repo (ospJoin base d) fs) := by
  unfold RepoManager.clone_repository
  rw [hd, hu]
  simp only
  rw [if_neg (by push_neg; exact ⟨hu2, hdest⟩)]
  apply cmds_andThen_head
  apply cmds_andThen_head
  apply cmds_andThen_head
  cases hgp : gitPresent (makedirs (ospJoin base d) fs) (ospJoin base d) <;>
    simp [hgp, run_command_cmds, firstGitCommand, hu]

theorem clone_repository_ok_shape (w : World) (repo : Repo) (base : String) (fs : FS)
    (d u : String) (hd : repo.destination = some d) (hu : repo.url = some u)
    (hu2 : u ≠ "") (hdest : ospJoin base d ≠ "")
    (hall : ∀ c, w.gitOk c = true) :
    RepoManager.clone_repository w repo base fs =
      ⟨(TaskExecutor.execute_tasks w repo.tasks base (makedirs (ospJoin base d) fs)).fs,
       [Log.info "Cloning sources"] ++
         (TaskExecutor.execute_tasks w repo.tasks base (makedirs (ospJoin base d) fs)).logs,
       [firstGitCommand repo (ospJoin base d) fs] ++
         (if truthy repo.commit then
            [["git", "-C", ospJoin base d, "checkout", repo.commit.getD ""]] else []) ++
         (if truthy repo.submodules then
            [["git", "-C", ospJoin base d, "submodule", "update", "--init"] ++
              (if repo.submodules = some "recursive" then ["--recursive"] else [])] else []),
       none,
       (TaskExecutor.execute_tasks w repo.tasks base (makedirs (ospJoin base d) fs)).exn⟩ := by
  unfold RepoManager.clone_repository
  rw [hd, hu]
  simp only
  rw [if_neg (by push_neg; exact ⟨hu2, hdest⟩)]
  cases hgp : gitPresent (makedirs (ospJoin base d) fs) (ospJoin base d) <;>
    cases hc : truthy repo.commit <;>
      cases hs : truthy repo.submodules <;>
        simp [hgp, hc, hs, RepoManager.run_command, hall, PRes.andThen, PRes.skip,
          firstGitCommand, hu]

/-! Claim theorems. -/

/-- C1: for every task list and base directory, `execute_tasks` never raises
to its caller — every per-task failure is caught, reported, and the loop
proceeds; in particular, for the list `[copy-with-missing-destination,
delete(existing file)]` the first task reports an error and the second still
removes the file. -/
theorem execute_tasks_never_raises :
    (∀ (w : World) (tasks : List Task) (base : String) (fs : FS),
        (TaskExecutor.execute_tasks w tasks base fs).exn = none) ∧
    ((TaskExecutor.execute_tasks wAll demoTasksC1 "proj" fsA).exn = none ∧
      hasError (TaskExecutor.execute_tasks wAll demoTasksC1 "proj" fsA).logs = true ∧
      fsA "proj/a.txt" = some (Entry.file 1 2 false) ∧
      (TaskExecutor.execute_tasks wAll demoTasksC1 "proj" fsA).fs "proj/a.txt" = none) := by
  constructor
  · intro w tasks base fs
    exact execute_tasks_exn_aux w tasks base fs
  · exact ⟨by decide, by decide, by decide, by decide⟩

/-- C2, observed behaviour (the claim's "warning" is wrong): for an
unrecognised action name, `action_map.get(action, 'unknown')` yields the
truthy string `'unknown'`, so the `else` warning branch of the loop is
unreachable; calling the string raises `TypeError`, which the loop catches
and logs as an ERROR.  The filesystem is unchanged, no exception escapes,
and subsequent tasks still run. -/
theorem unknown_action_logs_error_not_warning :
    hasError (TaskExecutor.execute_tasks wAll demoTasksC2 "proj" fsA).logs = true ∧
    hasWarning (TaskExecutor.execute_tasks wAll demoTasksC2 "proj" fsA).logs = false ∧
    (TaskExecutor.execute_tasks wAll demoTasksC2 "proj" fsA).exn = none ∧
    (∀ p, (TaskExecutor.execute_tasks wAll [⟨some "unknown-op", some "a.txt", none⟩]
      "proj" fsA).fs p = fsA p) ∧
    (TaskExecutor.execute_tasks wAll demoTasksC2 "proj" fsA).fs "proj/b.txt" = none := by
  exact ⟨by decide, by decide, by decide, fun p => rfl, by decide⟩

/-- C3 as stated is false: a repository entry with `url` present but
`destination` absent does not report an error and continue — reading
`repo['destination']` raises `KeyError`, which nothing catches, so the run
terminates before the next entry: no error line is logged and the following
(well-formed) repository entry issues no command. -/
theorem missing_destination_raises_counterexample :
    repoNoDest.url = some "u" ∧ repoNoDest.destination = none ∧
    (BootstrapManager.run wAll mC3 fsEmpty).exn = some "KeyError" ∧
    hasError (BootstrapManager.run wAll mC3 fsEmpty).logs = false ∧
    (BootstrapManager.run wAll mC3 fsEmpty).cmds = [] := by
  exact ⟨rfl, rfl, by decide, by decide, by decide⟩

/-- C3 amended: for an entry missing its `url` field (for repositories, with
`destination` present — a missing `destination` instead raises `KeyError`),
provisioning reports an error and returns with no side effects (no directory
creation, no external command, no download), and since the result is neither
fatal nor an exception, the run proceeds to the next entry. -/
theorem missing_url_reports_and_run_continues :
    (∀ (w : World) (repo : Repo) (base : String) (fs : FS) (d : String),
        repo.url = none → repo.destination = some d →
        (RepoManager.clone_repository w repo base fs).exn = none ∧
        (RepoManager.clone_repository w repo base fs).fatal = none ∧
        (RepoManager.clone_repository w repo base fs).cmds = [] ∧
        hasError (RepoManager.clone_repository w repo base fs).logs = true ∧
        (∀ p, (RepoManager.clone_repository w repo base fs).fs p = fs p)) ∧
    (∀ (w : World) (a : Artifact) (base : String) (fs : FS),
        a.url = none →
        (ArtifactManager.download w a base fs).exn = none ∧
        (ArtifactManager.download w a base fs).fatal = none ∧
        (ArtifactManager.download w a base fs).cmds = [] ∧
        hasError (ArtifactManager.download w a base fs).logs = true ∧
        (∀ p, (ArtifactManager.download w a base fs).fs p = fs p)) ∧
    (∀ (r : PRes) (k : FS → PRes), r.fatal = none → r.exn = none →
        (r.andThen k).cmds = r.cmds ++ (k r.fs).cmds) := by
  refine ⟨?_, ?_, ?_⟩
  · intro w repo base fs d hu hd
    simp [RepoManager.clone_repository, hd, hu, hasError]
  · intro w a base fs hu
    simp [ArtifactManager.download, hu, hasError]
  · intro r k hf he
    simp [PRes.andThen, hf, he]

/-- C4: an external version-control command that exits non-zero makes
`run_command` report an error and call `exit(1)`; a fatal result turns every
later sequencing step, and hence every later repository, artifact, or task of
the run, into a no-op; in particular an entry whose first git command fails
ends with exit code 1 having issued that one command only. -/
theorem git_command_failure_terminates_run :
    (∀ (w : World) (cmd : List String) (fs : FS), w.gitOk cmd = false →
        (RepoManager.run_command w cmd fs).fatal = some 1 ∧
        hasError (RepoManager.run_command w cmd fs).logs = true) ∧
    (∀ (r : PRes) (k : FS → PRes), r.fatal = some 1 → r.andThen k = r) ∧
    (∀ {α : Type} (step : α → FS → PRes) (l : List α) (r : PRes), r.fatal = some 1 →
        l.foldl (fun acc e => acc.andThen fun fsx => step e fsx) r = r) ∧
    (∀ (w : World) (repo : Repo) (base : String) (fs : FS) (d u : String),
        repo.destination = some d → repo.url = some u → u ≠ "" → ospJoin base d ≠ "" →
        w.gitOk (firstGitCommand repo (ospJoin base d) fs) = false →
        (RepoManager.clone_repository w repo base fs).fatal = some 1 ∧
        (RepoManager.clone_repository w repo base fs).cmds =
          [firstGitCommand repo (ospJoin base d) fs]) := by
  refine ⟨?_, ?_, ?_, ?_⟩
  · intro w cmd fs h
    constructor <;> simp [RepoManager.run_command, h, hasError]
  · intro r k h
    exact PRes.andThen_halted r k (Or.inl (by rw [h]; rfl))
  · intro α step l r h
    exact foldl_andThen_halted step l r (Or.inl (by rw [h]; rfl))
  · intro w repo base fs d u hd hu hu2 hdest hfail
    unfold RepoManager.clone_repository
    rw [hd, hu]
    simp only
    rw [if_neg (by push_neg; exact ⟨hu2, hdest⟩)]
    cases hgp : gitPresent (makedirs (ospJoin base d) fs) (ospJoin base d) <;>
      simp only [firstGitCommand, hgp, hu, Option.getD_some, Bool.false_eq_true,
        if_true, if_false, ite_true, ite_false] at hfail <;>
        simp [hgp, RepoManager.run_command, hfail, PRes.andThen, PRes.skip,
          firstGitCommand, hu]

/-- Witness for C4. -/
theorem git_command_failure_terminates_run_witness :
    wGitFail.gitOk ["git", "clone", "--branch", "main", "--single-branch", "u2", "proj/lib"]
        = false ∧
    (RepoManager.run_command wGitFail
      ["git", "clone", "--branch", "main", "--single-branch", "u2", "proj/lib"]
      fsEmpty).fatal = some 1 ∧
    (RepoManager.clone_repository wGitFail repoOk "proj" fsEmpty).fatal = some 1 ∧
    (RepoManager.clone_repository wGitFail repoOk "proj" fsEmpty).cmds =
      [firstGitCommand repoOk "proj/lib" fsEmpty] := by
  have h1 := (git_command_failure_terminates_run.1 wGitFail
    ["git", "clone", "--branch", "main", "--single-branch", "u2", "proj/lib"] fsEmpty rfl).1
  have h4 := git_command_failure_terminates_run.2.2.2 wGitFail repoOk "proj" fsEmpty "lib" "u2"
    rfl rfl (by decide) (by decide) (by decide)
  exact ⟨rfl, h1, h4.1, h4.2⟩

/-- C5: with `url` and `destination` present, a pre-existing `.git` entry
below the resolved destination makes provisioning issue a pull and no git
clone invocation anywhere in the run; without it, the first command is a
clone restricted to the single named branch (branch defaulting to "main");
and a pre-existing `.git` never makes the step fail — when the external
commands succeed, the step ends with no exit and no exception. -/
theorem clone_or_pull_by_git_metadata :
    ∀ (w : World) (repo : Repo) (base : String) (fs : FS) (d u : String),
      repo.destination = some d → repo.url = some u → u ≠ "" → ospJoin base d ≠ "" →
      (gitPresent (makedirs (ospJoin base d) fs) (ospJoin base d) = true →
        (RepoManager.clone_repository w repo base fs).cmds.head? =
          some ["git", "-C", ospJoin base d, "pull"] ∧
        ((∀ c, w.gitOk c = true) →
          (∀ c ∈ (RepoManager.clone_repository w repo base fs).cmds, c.get? 1 = some "-C") ∧
          (RepoManager.clone_repository w repo base fs).fatal = none ∧
          (RepoManager.clone_repository w repo base fs).exn = none)) ∧
      (gitPresent (makedirs (ospJoin base d) fs) (ospJoin base d) = false →
        (RepoManager.clone_repository w repo base fs).cmds.head? =
          some ["git", "clone", "--branch", repo.branch.getD "main", "--single-branch", u,
            ospJoin base d]) := by
  intro w repo base fs d u hd hu hu2 hdest
  constructor
  · intro hgp
    constructor
    · rw [clone_repository_first_cmd w repo base fs d u hd hu hu2 hdest]
      rw [firstGitCommand, hgp]
      simp
    · intro hall
      rw [clone_repository_ok_shape w repo base fs d u hd hu hu2 hdest hall]
      refine ⟨?_, rfl, execute_tasks_exn_aux w repo.tasks base _⟩
      intro c hc
      rw [firstGitCommand, hgp] at hc
      simp only [if_true] at hc
      simp only [List.mem_append, List.mem_singleton] at hc
      rcases hc with (hc | hc) | hc
      · rw [hc]; rfl
      · rcases hc2 : truthy repo.commit with _ | _ <;> rw [hc2] at hc <;> simp at hc
        rw [hc]; rfl
      · rcases hs2 : truthy repo.submodules with _ | _ <;> rw [hs2] at hc <;> simp at hc
        rw [hc]
        rcases hr2 : decide (repo.submodules = some "recursive") with _ | _ <;>
          simp [hr2]
  · intro hgp
    rw [clone_repository_first_cmd w repo base fs d u hd hu hu2 hdest]
    rw [firstGitCommand, hgp]
    simp [hu]

/-- Witness for C5. -/
theorem clone_or_pull_by_git_metadata_witness :
    gitPresent (makedirs (ospJoin "p" "lib") fsGit) (ospJoin "p" "lib") = true ∧
    (RepoManager.clone_repository wAll repoC9 "p" fsGit).cmds.head? =
      some ["git", "-C", "p/lib", "pull"] ∧
    (RepoManager.clone_repository wAll repoC9 "p" fsGit).fatal = none := by
  have h := clone_or_pull_by_git_metadata wAll repoC9 "p" fsGit "lib" "u" rfl rfl
    (by decide) (by decide)
  have h1 := h.1 (by decide)
  exact ⟨by decide, by simpa using h1.1, (h1.2 (fun c => rfl)).2.1⟩

/-- C6: every task's `source` and `destination` resolve against the top-level
project root passed to the provisioners, not against the owning entry's own
destination directory: both the repository provisioner and the artifact
provisioner run their tasks with the same base directory they were themselves
given, and in the concrete scenarios a delete task with `source = "data.txt"`
— owned once by the repository at `p/lib` and once by the artifact downloaded
to `p/lib/file.bin` — removes `p/data.txt` and leaves `p/lib/data.txt` in
place. -/
theorem tasks_resolve_against_project_root :
    (∀ (w : World) (repo : Repo) (base : String) (fs : FS) (d u : String),
        repo.destination = some d → repo.url = some u → u ≠ "" → ospJoin base d ≠ "" →
        (∀ c, w.gitOk c = true) →
        ∀ p, (RepoManager.clone_repository w repo base fs).fs p =
          (TaskExecutor.execute_tasks w repo.tasks base (makedirs (ospJoin base d) fs)).fs p) ∧
    (∀ (w : World) (a : Artifact) (base : String) (fs fs2 : FS) (u : String),
        a.url = some u → u ≠ "" → ospJoin base (a.destination.getD "") ≠ "" →
        dirname (ospJoin base (a.destination.getD "")) ≠ "" →
        w.httpOk u = true →
        writeFile (ospJoin base (a.destination.getD "")) (w.httpBody u)
          (makedirs (dirname (ospJoin base (a.destination.getD ""))) fs) = Except.ok fs2 →
        ∀ p, (ArtifactManager.download w a base fs).fs p =
          (TaskExecutor.execute_tasks w a.tasks base fs2).fs p) ∧
    ((RepoManager.clone_repository wAll repoC6 "p" fsC6).fs "p/data.txt" = none ∧
      (RepoManager.clone_repository wAll repoC6 "p" fsC6).fs "p/lib/data.txt" =
        some (Entry.file 2 2 false) ∧
      fsC6 "p/data.txt" = some (Entry.file 1 1 false) ∧
      fsC6 "p/lib/data.txt" = some (Entry.file 2 2 false)) ∧
    ((ArtifactManager.download wAll artC6 "p" fsC6).fs "p/data.txt" = none ∧
      (ArtifactManager.download wAll artC6 "p" fsC6).fs "p/lib/data.txt" =
        some (Entry.file 2 2 false) ∧
      (ArtifactManager.download wAll artC6 "p" fsC6).fs "p/lib/file.bin" =
        some (Entry.file 7 0 false)) := by
  refine ⟨?_, ?_, ?_, ?_⟩
  · intro w repo base fs d u hd hu hu2 hdest hall p
    rw [clone_repository_ok_shape w repo base fs d u hd hu hu2 hdest hall]
  · intro w a base fs fs2 u hu hu2 hdest hdn hhttp hwr p
    simp only [ArtifactManager.download, hu]
    rw [if_neg (by push_neg; exact ⟨hu2, hdest⟩)]
    simp only [makedirsE]
    rw [if_neg hdn]
    simp only [hhttp, if_true, ite_true]
    rw [hwr]
  · exact ⟨by decide, by decide, by decide, by decide⟩
  · exact ⟨by decide, by decide, by decide⟩

/-- Witness for C6: both general conjuncts applied at the concrete scenarios. -/
theorem tasks_resolve_against_project_root_witness :
    (RepoManager.clone_repository wAll repoC6 "p" fsC6).fs "p/data.txt" =
      (TaskExecutor.execute_tasks wAll repoC6.tasks "p"
        (makedirs (ospJoin "p" "lib") fsC6)).fs "p/data.txt" ∧
    (ArtifactManager.download wAll artC6 "p" fsC6).fs "p/data.txt" =
      (TaskExecutor.execute_tasks wAll artC6.tasks "p" fsC6art).fs "p/data.txt" := by
  constructor
  · exact tasks_resolve_against_project_root.1 wAll repoC6 "p" fsC6 "lib" "u" rfl rfl
      (by decide) (by decide) (fun c => rfl) "p/data.txt"
  · exact tasks_resolve_against_project_root.2.1 wAll artC6 "p" fsC6 fsC6art "http" rfl
      (by decide) (by decide) (by decide) rfl (by rfl) "p/data.txt"

/-- Witness for the amended C3. -/
theorem missing_url_reports_and_run_continues_witness :
    (RepoManager.clone_repository wAll repoNoUrl "proj" fsEmpty).cmds = [] ∧
    hasError (RepoManager.clone_repository wAll repoNoUrl "proj" fsEmpty).logs = true ∧
    (RepoManager.clone_repository wAll repoNoUrl "proj" fsEmpty).exn = none := by
  have h := missing_url_reports_and_run_continues.1 wAll repoNoUrl "proj" fsEmpty "lib" rfl rfl
  exact ⟨h.2.2.1, h.2.2.2.1, h.1⟩

theorem makedirs_some (t : String) (fs : FS) (p : String) (e : Entry) (h : fs p = some e) :
    makedirs t fs p = some e := by
  unfold makedirs
  simp [h]

/-- C7: the delete operation is total and idempotent over path states: a
directory source is removed recursively together with everything below it —
read-only entries included, with no side condition on the write-protection
bit, since the `remove_readonly` hook clears it — a file source is removed,
and an absent source logs a warning, raises nothing, and leaves the
filesystem unchanged. -/
theorem delete_is_idempotent_and_total :
    ∀ (fs : FS) (src : String),
      (isdir fs src = true →
        (TaskExecutor.deleteAction src fs).exn = none ∧
        (∀ p, (underOf (normPath src) p).isSome = true →
          (TaskExecutor.deleteAction src fs).fs p = none) ∧
        (∀ p, (underOf (normPath src) p).isSome = false →
          (TaskExecutor.deleteAction src fs).fs p = fs p)) ∧
      (isdir fs src = false → isfile fs src = true →
        (TaskExecutor.deleteAction src fs).exn = none ∧
        (TaskExecutor.deleteAction src fs).fs (normPath src) = none ∧
        (∀ p, p ≠ normPath src → (TaskExecutor.deleteAction src fs).fs p = fs p)) ∧
      (isdir fs src = false → isfile fs src = false →
        (TaskExecutor.deleteAction src fs).exn = none ∧
        hasWarning (TaskExecutor.deleteAction src fs).logs = true ∧
        (∀ p, (TaskExecutor.deleteAction src fs).fs p = fs p)) := by
  intro fs src
  refine ⟨?_, ?_, ?_⟩
  · intro h
    simp only [TaskExecutor.deleteAction, h, if_true]
    exact ⟨trivial, fun p hp => by simp [rmtree, hp], fun p hp => by simp [rmtree, hp]⟩
  · intro h1 h2
    simp only [TaskExecutor.deleteAction, h1, h2, Bool.false_eq_true, ite_false, if_true,
      ite_true]
    exact ⟨trivial, by simp [removeFile], fun p hp => by simp [removeFile, hp]⟩
  · intro h1 h2
    refine ⟨?_, ?_, fun p => ?_⟩ <;>
      simp [TaskExecutor.deleteAction, h1, h2, hasWarning]

/-- Witness for C7: the read-only file below the directory is removed, and
deleting an absent path warns without changing anything. -/
theorem delete_is_idempotent_and_total_witness :
    isdir fsC7 "p/d" = true ∧
    fsC7 "p/d/ro.txt" = some (Entry.file 5 5 true) ∧
    (TaskExecutor.deleteAction "p/d" fsC7).fs "p/d/ro.txt" = none ∧
    isdir fsC7 "p/missing" = false ∧ isfile fsC7 "p/missing" = false ∧
    hasWarning (TaskExecutor.deleteAction "p/missing" fsC7).logs = true := by
  have h1 := (delete_is_idempotent_and_total fsC7 "p/d").1 (by decide)
  have h3 := (delete_is_idempotent_and_total fsC7 "p/missing").2.2 (by decide) (by decide)
  exact ⟨by decide, by decide, h1.2.1 "p/d/ro.txt" (by decide), by decide, by decide, h3.2.1⟩

/-- C8: the copy operation: an empty (or absent) destination is a reported
error with no filesystem change; a directory source merge-copies into the
destination, overwriting entries whose counterpart exists below the source
and preserving the rest; a file source first creates the destination's
parent directory if absent and then copies the file together with its
modification metadata.  The specification's concrete merge scenario
(`A = x.txt, y.txt` into `B = old y.txt, z.txt`) is included. -/
theorem copy_merge_and_file_semantics :
    (∀ (fs : FS) (source : String) (dOpt : Option String),
      (dOpt = none ∨ dOpt = some "" →
        hasError (TaskExecutor.copyAction source dOpt fs).logs = true ∧
        (TaskExecutor.copyAction source dOpt fs).exn = none ∧
        (∀ p, (TaskExecutor.copyAction source dOpt fs).fs p = fs p)) ∧
      (∀ d, dOpt = some d → d ≠ "" → isdir fs source = true →
        (TaskExecutor.copyAction source dOpt fs).exn = none ∧
        (∀ p rel e, underOf (normPath d) p = some rel →
          fs (joinRel (normPath source) rel) = some e →
          (TaskExecutor.copyAction source dOpt fs).fs p = some e) ∧
        (∀ p rel, underOf (normPath d) p = some rel →
          fs (joinRel (normPath source) rel) = none →
          (TaskExecutor.copyAction source dOpt fs).fs p = fs p) ∧
        (∀ p, underOf (normPath d) p = none →
          (TaskExecutor.copyAction source dOpt fs).fs p = fs p)) ∧
      (∀ d c m ro, dOpt = some d → d ≠ "" → isdir fs source = false →
        fs (normPath source) = some (Entry.file c m ro) →
        dirname d ≠ "" →
        (makedirs (dirname d) fs) (normPath d) ≠ some Entry.dir →
        normPath (dirname d) ≠ normPath d →
        (TaskExecutor.copyAction source dOpt fs).exn = none ∧
        (TaskExecutor.copyAction source dOpt fs).fs (normPath d) = some (Entry.file c m ro) ∧
        (fs (normPath (dirname d)) = none →
          (TaskExecutor.copyAction source dOpt fs).fs (normPath (dirname d)) =
            some Entry.dir))) ∧
    ((TaskExecutor.copyAction "A" (some "B") fsC8).fs "B/x.txt" = some (Entry.file 1 10 false) ∧
      (TaskExecutor.copyAction "A" (some "B") fsC8).fs "B/y.txt" = some (Entry.file 2 20 false) ∧
      (TaskExecutor.copyAction "A" (some "B") fsC8).fs "B/z.txt" = some (Entry.file 3 30 false) ∧
      fsC8 "B/y.txt" = some (Entry.file 9 90 false) ∧ fsC8 "B/x.txt" = none) := by
  constructor
  · intro fs source dOpt
    refine ⟨?_, ?_, ?_⟩
    · rintro (h | h) <;> subst h <;>
        exact ⟨by simp [TaskExecutor.copyAction, hasError], rfl, fun p => rfl⟩
    · intro d hde hne hdir
      subst hde
      simp only [TaskExecutor.copyAction, hne, hdir, if_true, ite_true, ite_false,
        Bool.false_eq_true]
      refine ⟨trivial, ?_, ?_, ?_⟩
      · intro p rel e hp he
        simp [copytree, hp, he]
      · intro p rel hp he
        simp [copytree, hp, he]
      · intro p hp
        simp [copytree, hp]
    · intro d c m ro hde hne hdir hsrc hdn hnd hne2
      subst hde
      have hmk : makedirsE (dirname d) fs = Except.ok (makedirs (dirname d) fs) := by
        unfold makedirsE
        rw [if_neg hdn]
      have hsrc1 : makedirs (dirname d) fs (normPath source) = some (Entry.file c m ro) :=
        makedirs_some (dirname d) fs (normPath source) (Entry.file c m ro) hsrc
      have hcp : copy2 source d (makedirs (dirname d) fs) =
          Except.ok (fun p => if p = normPath d then some (Entry.file c m ro)
            else makedirs (dirname d) fs p) := by
        unfold copy2
        rw [hsrc1]
        simp only
      simp only [TaskExecutor.copyAction, hne, hdir, Bool.false_eq_true, ite_false, hmk, hcp]
      refine ⟨trivial, by simp, ?_⟩
      intro hpar
      rw [if_neg hne2]
      unfold makedirs
      simp [hpar, underOf]
  · exact ⟨by decide, by decide, by decide, by decide, by decide⟩

/-- Witness for C8: applying the theorem to the specification's merge
scenario: the overlapping `y.txt` is overwritten with the source's version
and the unrelated `z.txt` is preserved. -/
theorem copy_merge_and_file_semantics_witness :
    (TaskExecutor.copyAction "A" (some "B") fsC8).fs "B/y.txt" = some (Entry.file 2 20 false) ∧
    (TaskExecutor.copyAction "A" (some "B") fsC8).fs "B/z.txt" = fsC8 "B/z.txt" := by
  have h := (copy_merge_and_file_semantics.1 fsC8 "A" (some "B")).2.1 "B" rfl
    (by decide) (by decide)
  exact ⟨h.2.1 "B/y.txt" "y.txt" (Entry.file 2 20 false) (by decide) (by decide),
    h.2.2.1 "B/z.txt" "z.txt" (by decide) (by decide)⟩

/-- C9 as stated is false: the `submodules` manifest value `"none"` is a
non-empty string, hence truthy in the dispatch `if submodules:`, so the
submodule initialize-and-update step runs although the declared mode is
`none`. -/
theorem submodule_none_still_runs_counterexample :
    repoC9.submodules = some "none" ∧
    (RepoManager.clone_repository wAll repoC9 "p" fsGit).cmds =
      [["git", "-C", "p/lib", "pull"],
       ["git", "-C", "p/lib", "submodule", "update", "--init"]] := by
  exact ⟨rfl, by decide⟩

/-- C9 amended: the submodule initialize-and-update step runs exactly when
the `submodules` field is present with a non-empty (truthy) value — which
includes the literal string "none" — and the step recurses into nested
submodules exactly when the value equals "recursive"; an absent field runs
no step. -/
theorem submodule_step_iff_truthy :
    ∀ (w : World) (repo : Repo) (base : String) (fs : FS) (d u : String),
      repo.destination = some d → repo.url = some u → u ≠ "" → ospJoin base d ≠ "" →
      (∀ c, w.gitOk c = true) →
      (RepoManager.clone_repository w repo base fs).cmds =
        [firstGitCommand repo (ospJoin base d) fs] ++
          (if truthy repo.commit then
            [["git", "-C", ospJoin base d, "checkout", repo.commit.getD ""]] else []) ++
          (if truthy repo.submodules then
            [["git", "-C", ospJoin base d, "submodule", "update", "--init"] ++
              (if repo.submodules = some "recursive" then ["--recursive"] else [])]
           else []) ∧
      ((["git", "-C", ospJoin base d, "submodule", "update", "--init"] ++
          (if repo.submodules = some "recursive" then ["--recursive"] else [])) ∈
            (RepoManager.clone_repository w repo base fs).cmds ↔
        truthy repo.submodules = true) := by
  intro w repo base fs d u hd hu hu2 hdest hall
  have hsh := clone_repository_ok_shape w repo base fs d u hd hu hu2 hdest hall
  constructor
  · rw [hsh]
  · rw [hsh]
    simp only
    constructor
    · intro hmem
      by_contra hnt
      rw [Bool.not_eq_true] at hnt
      rw [hnt] at hmem
      simp only [if_false, ite_false, Bool.false_eq_true, List.append_nil,
        List.mem_append, List.mem_singleton] at hmem
      rcases hmem with hmem | hmem
      · rw [firstGitCommand] at hmem
        rcases hgp : gitPresent (makedirs (ospJoin base d) fs) (ospJoin base d) with _ | _ <;>
          rw [hgp] at hmem <;>
            rcases hr : decide (repo.submodules = some "recursive") with _ | _ <;>
              simp [hr] at hmem
      · rcases hc : truthy repo.commit with _ | _ <;> rw [hc] at hmem <;>
          rcases hr : decide (repo.submodules = some "recursive") with _ | _ <;>
            simp [hr] at hmem
    · intro ht
      rw [ht]
      simp

/-- Witness for the amended C9. -/
theorem submodule_step_iff_truthy_witness :
    (RepoManager.clone_repository wAll repoC9 "p" fsGit).cmds =
      [firstGitCommand repoC9 (ospJoin "p" "lib") fsGit,
       ["git", "-C", ospJoin "p" "lib", "submodule", "update", "--init"]] ∧
    (["git", "-C", ospJoin "p" "lib", "submodule", "update", "--init"] ∈
      (RepoManager.clone_repository wAll repoC9 "p" fsGit).cmds ↔
        truthy repoC9.submodules = true) := by
  have h := submodule_step_iff_truthy wAll repoC9 "p" fsGit "lib" "u" rfl rfl
    (by decide) (by decide) (fun c => rfl)
  constructor
  · simpa [repoC9, truthy] using h.1
  · simpa [repoC9] using h.2

theorem stripSlashes_append_slash (b : String) :
    stripSlashes (b ++ "/") = stripSlashes b := by
  unfold stripSlashes
  have h : (b ++ "/").toList = b.toList ++ ['/'] := by simp [String.toList]
  rw [h]
  simp [List.dropWhile_cons]

theorem normPath_append_slash (b : String) (h1 : b ≠ "") (h2 : stripSlashes b = b) :
    normPath (b ++ "/") = b := by
  unfold normPath
  rw [stripSlashes_append_slash, h2]
  simp [h1]

theorem normPath_eq_self (b : String) (h1 : b ≠ "") (h2 : stripSlashes b = b) :
    normPath b = b := by
  unfold normPath
  rw [h2]
  simp [h1]

theorem ospJoin_empty_suffix (b : String) (h1 : b ≠ "") (h3 : strEndsWith b "/" = false) :
    ospJoin b "" = b ++ "/" := by
  unfold ospJoin
  rw [if_neg (by decide), if_neg (by simp [h1, h3])]
  rw [String.append_empty]

/-- C10: a delete task whose entry has no `source` field resolves its source
to the base directory joined with the empty string — the project root itself,
with a trailing slash the OS resolves away — so executing that task when the
project root exists recursively deletes the entire root directory. -/
theorem delete_without_source_removes_project_root :
    ∀ (w : World) (base : String) (fs : FS),
      base ≠ "" → strEndsWith base "/" = false → stripSlashes base = base →
      isdir fs base = true →
      ospJoin base "" = base ++ "/" ∧
      normPath (base ++ "/") = base ∧
      ((TaskExecutor.execute_tasks w [⟨some "delete", none, none⟩] base fs).exn = none ∧
        (∀ p, (underOf base p).isSome = true →
          (TaskExecutor.execute_tasks w [⟨some "delete", none, none⟩] base fs).fs p = none)) := by
  intro w base fs h1 h3 h2 hdir
  have hj := ospJoin_empty_suffix base h1 h3
  have hn := normPath_append_slash base h1 h2
  have hdirj : isdir fs (ospJoin base "") = true := by
    unfold isdir at hdir ⊢
    rw [hj, hn]
    rw [normPath_eq_self base h1 h2] at hdir
    exact hdir
  have hfs : (TaskExecutor.execute_tasks w [⟨some "delete", none, none⟩] base fs).fs =
      rmtree (ospJoin base "") fs := by
    simp only [TaskExecutor.execute_tasks, List.foldl_cons, List.foldl_nil]
    simp only [TaskExecutor.stepTask, TaskExecutor.action_map, TaskExecutor.Handler.truthy,
      TaskExecutor.callHandler, TaskExecutor.deleteAction, Option.getD_none, Option.map_none,
      hdirj, if_true, ite_true]
  refine ⟨hj, hn, execute_tasks_exn_aux w _ base fs, ?_⟩
  intro p hp
  rw [hfs]
  unfold rmtree
  rw [hj, hn]
  simp [hp]

/-- Witness for C10. -/
theorem delete_without_source_removes_project_root_witness :
    (underOf "proj" "proj/a.txt").isSome = true ∧
    (TaskExecutor.execute_tasks wAll [⟨some "delete", none, none⟩] "proj" fsA).fs
      "proj/a.txt" = none ∧
    (TaskExecutor.execute_tasks wAll [⟨some "delete", none, none⟩] "proj" fsA).fs
      "proj" = none := by
  have h := delete_without_source_removes_project_root wAll "proj" fsA
    (by decide) (by decide) (by decide) (by decide)
  exact ⟨by decide, h.2.2.2 "proj/a.txt" (by decide), h.2.2.2 "proj" (by decide)⟩

end Bootstrapper
